import Mathlib

/-!
Verification of the serde-redis codec (`src/decode.rs`, `src/encode.rs`,
`src/cow_iter.rs`) against its natural-language specification.

The Rust code is shallowly embedded:
* `redis::Value` becomes the inductive `Value`, with `Data` carrying its raw
  byte payload as `List Nat` (each byte a number below 256).
* The borrow-vs-owned `Cow` duality only selects between allocation-free and
  moving variants of the same behaviour; the embedding collapses it, keeping
  the `Borrowed` arm's error constructor where the two arms differ only in
  which UTF-8 error constructor they return (`StrFromUtf8` vs
  `StringFromUtf8`).
* Rust's `str::from_utf8` / `String::from_utf8` are modelled by `utf8Decode`,
  and `str::as_bytes` by `strBytes`, both following the UTF-8 standard that
  those library functions implement (reject overlong forms, surrogates and
  code points above 0x10FFFF).
* `i64::to_string`/`parse::<T>()` are modelled by `reprInt`/`parseUnsigned`/
  `parseSigned` (decimal text, optional sign, overflow checked).
* Fallible Rust functions returning `Result` become `Except`.
-/

namespace SerdeRedis

/-- Model of `redis::Value`, the wire value tree (external crate `redis`).  `Data`
holds raw bytes; `Bulk` is the array variant; `Nil` the absence marker.
`Status` and `Okay` are the remaining protocol variants, which every decode
path rejects through its catch-all match arm. -/
inductive Value where
  | Data (bytes : List Nat)
  | Int (i : Int)
  | Bulk (values : List Value)
  | Nil
  | Status (s : String)
  | Okay

/-- Abbreviated stand-in for the `{:?}` (Debug) rendering of a `Value` that
the Rust code interpolates into error messages; only the constructor is
shown, since no behaviour depends on the message text. -/
def Value.show : Value → String
  | .Data _ => "Data(..)"
  | .Int _ => "Int(..)"
  | .Bulk _ => "Bulk(..)"
  | .Nil => "Nil"
  | .Status _ => "Status(..)"
  | .Okay => "Okay"

/-- Model of `decode::Error`.  `StrFromUtf8`/`StringFromUtf8`/`ParseInt`/`ParseFloat`
wrap library error values in the source; the payloads carry no information
the decoder ever inspects, so they are dropped here. -/
inductive DError where
  | Custom (msg : String)
  | EndOfStream
  | UnknownVariant (variant : String) (expected : List String)
  | UnknownField (field : String) (expected : List String)
  | MissingField (field : String)
  | DuplicateField (field : String)
  | DeserializeNotSupported
  | WrongValue (msg : String)
  | StrFromUtf8
  | StringFromUtf8
  | ParseInt
  | ParseFloat
deriving Repr, DecidableEq

/-- Model of `encode::Error`, which has the single `Custom` variant.  `Panicked` is not a
value of that Rust enum: it models the abnormal termination of `todo!()`
(which aborts instead of returning an `Err`), so that the encoder can be
embedded as a total function. -/
inductive SError where
  | Custom (msg : String)
  | Panicked (msg : String)
deriving Repr, DecidableEq

/-! ## UTF-8 (model of `str::from_utf8` / `String::from_utf8` / `as_bytes`) -/

/-- UTF-8 encoding of one Unicode scalar value, by code-point range
(1 to 4 bytes).  Arithmetic (`/`, `%`) stands for the bit operations of the
standard encoder. -/
def utf8EncodeChar (c : Char) : List Nat :=
  let n := c.toNat
  if n < 128 then [n]
  else if n < 2048 then [192 + n / 64, 128 + n % 64]
  else if n < 65536 then [224 + n / 4096, 128 + (n / 64) % 64, 128 + n % 64]
  else [240 + n / 262144, 128 + (n / 4096) % 64, 128 + (n / 64) % 64, 128 + n % 64]

/-- The byte payload of a Rust `&str`/`String` (`as_bytes`, `into_bytes`). -/
def strBytes (s : String) : List Nat :=
  (s.data.map utf8EncodeChar).flatten

/-- Decode one UTF-8 sequence from the front of a byte list, as
`str::from_utf8` validates it: rejects stray or missing continuation bytes,
overlong encodings, surrogate code points and code points above 0x10FFFF. -/
def utf8DecodeOne : List Nat → Option (Char × List Nat)
  | [] => none
  | b0 :: rest =>
    if b0 < 128 then some (Char.ofNat b0, rest)
    else if b0 < 192 then none
    else if b0 < 224 then
      match rest with
      | b1 :: rest2 =>
        let v := (b0 - 192) * 64 + (b1 - 128)
        if 128 ≤ b1 ∧ b1 < 192 ∧ 128 ≤ v then some (Char.ofNat v, rest2) else none
      | [] => none
    else if b0 < 240 then
      match rest with
      | b1 :: b2 :: rest3 =>
        let v := (b0 - 224) * 4096 + (b1 - 128) * 64 + (b2 - 128)
        if 128 ≤ b1 ∧ b1 < 192 ∧ 128 ≤ b2 ∧ b2 < 192 ∧ 2048 ≤ v ∧
            ¬(55296 ≤ v ∧ v < 57344) then some (Char.ofNat v, rest3) else none
      | _ => none
    else if b0 < 248 then
      match rest with
      | b1 :: b2 :: b3 :: rest4 =>
        let v := (b0 - 240) * 262144 + (b1 - 128) * 4096 + (b2 - 128) * 64 + (b3 - 128)
        if 128 ≤ b1 ∧ b1 < 192 ∧ 128 ≤ b2 ∧ b2 < 192 ∧ 128 ≤ b3 ∧ b3 < 192 ∧
            65536 ≤ v ∧ v < 1114112 then some (Char.ofNat v, rest4) else none
      | _ => none
    else none

theorem utf8DecodeOne_length {bs rest : List Nat} {c : Char}
    (h : utf8DecodeOne bs = some (c, rest)) : rest.length < bs.length := by
  match bs with
  | [] => simp [utf8DecodeOne] at h
  | b0 :: r =>
    simp only [utf8DecodeOne] at h
    repeat' split at h
    all_goals
      first
      | (simp only [Option.some.injEq, Prod.mk.injEq] at h
         obtain ⟨-, h2⟩ := h
         subst h2
         simp only [List.length_cons]
         omega)
      | simp at h

/-- UTF-8 validation/decoding of a whole byte list (`str::from_utf8`):
`some` of the character list on valid input, `none` on invalid input. -/
def utf8Decode (bs : List Nat) : Option (List Char) :=
  match h : utf8DecodeOne bs with
  | some (c, rest) =>
      have : rest.length < bs.length := utf8DecodeOne_length h
      (utf8Decode rest).map (c :: ·)
  | none => if bs = [] then some [] else none
termination_by bs.length

theorem utf8Decode_nil : utf8Decode [] = some [] := by
  rw [utf8Decode]
  simp [utf8DecodeOne]

theorem utf8Decode_eq_of_one {bs rest : List Nat} {c : Char}
    (h : utf8DecodeOne bs = some (c, rest)) :
    utf8Decode bs = (utf8Decode rest).map (c :: ·) := by
  rw [utf8Decode]
  split
  · rename_i c' rest' heq
    rw [h] at heq
    obtain ⟨rfl, rfl⟩ : c = c' ∧ rest = rest' := by simpa using heq
    rfl
  · rename_i heq
    rw [h] at heq
    exact absurd heq (by simp)

theorem utf8Decode_eq_of_none {bs : List Nat} (hne : bs ≠ [])
    (h : utf8DecodeOne bs = none) : utf8Decode bs = none := by
  rw [utf8Decode]
  split
  · rename_i c' rest' heq
    rw [h] at heq
    exact absurd heq (by simp)
  · simp [hne]

theorem toNat_ofNat_of_valid {n : Nat} (h : n.isValidChar) :
    (Char.ofNat n).toNat = n := by
  rw [Char.ofNat, dif_pos h]
  rfl

theorem utf8DecodeOne_encodeChar (c : Char) (rest : List Nat) :
    utf8DecodeOne (utf8EncodeChar c ++ rest) = some (c, rest) := by
  have hv : c.toNat.isValidChar := c.valid
  have hrange : c.toNat < 55296 ∨ (57343 < c.toNat ∧ c.toNat < 1114112) := hv
  by_cases h1 : c.toNat < 128
  · simp only [utf8EncodeChar, if_pos h1, List.cons_append, List.nil_append,
      utf8DecodeOne, if_pos h1, Char.ofNat_toNat]
  · by_cases h2 : c.toNat < 2048
    · simp only [utf8EncodeChar, if_neg h1, if_pos h2, List.cons_append, List.nil_append,
        utf8DecodeOne]
      rw [if_neg (show ¬ (192 + c.toNat / 64 < 128) by omega),
        if_neg (show ¬ (192 + c.toNat / 64 < 192) by omega),
        if_pos (show 192 + c.toNat / 64 < 224 by omega)]
      have e4 : 192 + c.toNat / 64 - 192 = c.toNat / 64 := by omega
      have e5 : 128 + c.toNat % 64 - 128 = c.toNat % 64 := by omega
      have e6 : c.toNat / 64 * 64 + c.toNat % 64 = c.toNat := by omega
      rw [e4, e5, e6, if_pos (by omega), Char.ofNat_toNat]
    · by_cases h3 : c.toNat < 65536
      · simp only [utf8EncodeChar, if_neg h1, if_neg h2, if_pos h3, List.cons_append,
          List.nil_append, utf8DecodeOne]
        have hq : c.toNat / 4096 < 16 := by omega
        rw [if_neg (show ¬ (224 + c.toNat / 4096 < 128) by omega),
          if_neg (show ¬ (224 + c.toNat / 4096 < 192) by omega),
          if_neg (show ¬ (224 + c.toNat / 4096 < 224) by omega),
          if_pos (show 224 + c.toNat / 4096 < 240 by omega)]
        have e4 : 224 + c.toNat / 4096 - 224 = c.toNat / 4096 := by omega
        have e5 : 128 + c.toNat / 64 % 64 - 128 = c.toNat / 64 % 64 := by omega
        have e6 : 128 + c.toNat % 64 - 128 = c.toNat % 64 := by omega
        have e7 : c.toNat / 4096 * 4096 + c.toNat / 64 % 64 * 64 + c.toNat % 64 = c.toNat := by
          omega
        rw [e4, e5, e6, e7, if_pos (by omega), Char.ofNat_toNat]
      · have h4 : c.toNat < 1114112 := by omega
        simp only [utf8EncodeChar, if_neg h1, if_neg h2, if_neg h3, List.cons_append,
          List.nil_append, utf8DecodeOne]
        have hq : c.toNat / 262144 < 5 := by omega
        rw [if_neg (show ¬ (240 + c.toNat / 262144 < 128) by omega),
          if_neg (show ¬ (240 + c.toNat / 262144 < 192) by omega),
          if_neg (show ¬ (240 + c.toNat / 262144 < 224) by omega),
          if_neg (show ¬ (240 + c.toNat / 262144 < 240) by omega),
          if_pos (show 240 + c.toNat / 262144 < 248 by omega)]
        have e4 : 240 + c.toNat / 262144 - 240 = c.toNat / 262144 := by omega
        have e5 : 128 + c.toNat / 4096 % 64 - 128 = c.toNat / 4096 % 64 := by omega
        have e6 : 128 + c.toNat / 64 % 64 - 128 = c.toNat / 64 % 64 := by omega
        have e6b : 128 + c.toNat % 64 - 128 = c.toNat % 64 := by omega
        have e7 : c.toNat / 262144 * 262144 + c.toNat / 4096 % 64 * 4096
            + c.toNat / 64 % 64 * 64 + c.toNat % 64 = c.toNat := by omega
        rw [e4, e5, e6, e6b, e7, if_pos (by omega), Char.ofNat_toNat]

theorem utf8Decode_encodeChar (c : Char) (rest : List Nat) :
    utf8Decode (utf8EncodeChar c ++ rest) = (utf8Decode rest).map (c :: ·) :=
  utf8Decode_eq_of_one (utf8DecodeOne_encodeChar c rest)

/-- UTF-8 round trip: decoding the encoding of any Rust string succeeds and
returns its characters. -/
theorem utf8Decode_strBytes (s : String) : utf8Decode (strBytes s) = some s.data := by
  show utf8Decode ((s.data.map utf8EncodeChar).flatten) = some s.data
  induction s.data with
  | nil => simpa using utf8Decode_nil
  | cons c cs ih =>
      simp only [List.map_cons, List.flatten_cons, utf8Decode_encodeChar, ih, Option.map_some']

/-! ## Decimal text (model of `to_string` and `str::parse` for integer types) -/

/-- The ASCII digit character for `d < 10`. -/
def digitChar (d : Nat) : Char := Char.ofNat (48 + d)

/-- Decimal text of a natural number, as `to_string` prints it (most
significant digit first, no sign, no leading zeros, `0` as `"0"`). -/
def reprNat (n : Nat) : List Char :=
  if n = 0 then ['0'] else (Nat.digits 10 n).reverse.map digitChar

/-- Decimal text of an integer, as `to_string` prints it (`-` prefix for
negatives). -/
def reprInt (i : Int) : List Char :=
  if i < 0 then '-' :: reprNat i.natAbs else reprNat i.natAbs

/-- The numeric value of an ASCII digit character, `none` otherwise. -/
def charDigit : Char → Option Nat := fun c =>
  if 48 ≤ c.toNat ∧ c.toNat ≤ 57 then some (c.toNat - 48) else none

/-- All-digits check: the digit values of a character list, `none` if any
character is not an ASCII digit. -/
def parseDigits : List Char → Option (List Nat)
  | [] => some []
  | c :: cs =>
    match charDigit c, parseDigits cs with
    | some d, some ds => some (d :: ds)
    | _, _ => none

/-- Value of a big-endian digit list. -/
def natFromDigits (ds : List Nat) : Nat := ds.foldl (fun a d => a * 10 + d) 0

/-- Digits-only decimal parse: at least one digit required. -/
def parseNatCore (cs : List Char) : Option Nat :=
  if cs = [] then none else (parseDigits cs).map natFromDigits

/-- Model of `str::parse::<uN>()` for the unsigned type of bit width `w`: optional
`+` sign, one or more digits, overflow checked (Rust reports overflow as a
`ParseIntError`, embedded as `ParseInt` like every other parse failure). -/
def parseUnsigned (w : Nat) (s : String) : Except DError Nat :=
  let core : List Char → Except DError Nat := fun cs =>
    match parseNatCore cs with
    | none => .error .ParseInt
    | some n => if n < 2 ^ w then .ok n else .error .ParseInt
  match s.data with
  | [] => .error .ParseInt
  | c :: r => if c = '+' then core r else core (c :: r)

/-- Model of `str::parse::<iN>()` for the signed type of bit width `w`: optional
`+`/`-` sign, one or more digits, overflow checked against the asymmetric
two's-complement range. -/
def parseSigned (w : Nat) (s : String) : Except DError Int :=
  let core : Bool → List Char → Except DError Int := fun neg cs =>
    match parseNatCore cs with
    | none => .error .ParseInt
    | some n =>
      if neg then
        if n ≤ 2 ^ (w - 1) then .ok (-(n : Int)) else .error .ParseInt
      else
        if n < 2 ^ (w - 1) then .ok (n : Int) else .error .ParseInt
  match s.data with
  | [] => .error .ParseInt
  | c :: r =>
    if c = '-' then core true r
    else if c = '+' then core false r
    else core false (c :: r)

/-- Rust `as` cast from `i64` to the unsigned integer type of bit width `w`
(truncation to the low `w` bits). -/
def castUnsigned (w : Nat) (i : Int) : Int := i % 2 ^ w

/-- Rust `as` cast from `i64` to the signed integer type of bit width `w`
(truncation to the low `w` bits, two's-complement reading). -/
def castSigned (w : Nat) (i : Int) : Int :=
  (i + 2 ^ (w - 1)) % 2 ^ w - 2 ^ (w - 1)

theorem toNat_digitChar {d : Nat} (h : d < 10) : (digitChar d).toNat = 48 + d :=
  toNat_ofNat_of_valid (Or.inl (by omega))

theorem charDigit_digitChar {d : Nat} (h : d < 10) : charDigit (digitChar d) = some d := by
  rw [charDigit, if_pos]
  · rw [toNat_digitChar h]
    congr 1
    omega
  · rw [toNat_digitChar h]
    omega

theorem parseDigits_map_digitChar {ds : List Nat} (h : ∀ d ∈ ds, d < 10) :
    parseDigits (ds.map digitChar) = some ds := by
  induction ds with
  | nil => rfl
  | cons d ds ih =>
      have hd : d < 10 := h d (List.mem_cons_self d ds)
      simp only [List.map_cons, parseDigits, charDigit_digitChar hd,
        ih (fun x hx => h x (List.mem_cons_of_mem d hx))]

theorem natFromDigits_reverse (L : List Nat) :
    natFromDigits L.reverse = Nat.ofDigits 10 L := by
  induction L with
  | nil => rfl
  | cons d L ih =>
      rw [List.reverse_cons]
      simp only [natFromDigits, List.foldl_append, List.foldl_cons, List.foldl_nil]
      have ih' : List.foldl (fun a d => a * 10 + d) 0 L.reverse = Nat.ofDigits 10 L := ih
      rw [ih', Nat.ofDigits_cons]
      omega

theorem parseNatCore_reprNat (n : Nat) : parseNatCore (reprNat n) = some n := by
  by_cases h0 : n = 0
  · subst h0
    decide
  · rw [reprNat, if_neg h0, parseNatCore, if_neg]
    · rw [parseDigits_map_digitChar]
      · rw [Option.map_some']
        rw [natFromDigits_reverse, Nat.ofDigits_digits]
      · intro d hd
        exact Nat.digits_lt_base (by norm_num) (List.mem_reverse.mp hd)
    · simp only [ne_eq, List.map_eq_nil_iff, List.reverse_eq_nil_iff]
      exact Nat.digits_ne_nil_iff_ne_zero.mpr h0

theorem reprNat_head (n : Nat) : ∃ d r, d < 10 ∧ reprNat n = digitChar d :: r := by
  by_cases h0 : n = 0
  · subst h0
    exact ⟨0, [], by omega, by decide⟩
  · rw [reprNat, if_neg h0]
    obtain ⟨d, L, hL⟩ : ∃ d L, (Nat.digits 10 n).reverse = d :: L := by
      rcases hrev : (Nat.digits 10 n).reverse with _ | ⟨d, L⟩
      · exact absurd (by simpa using hrev) (Nat.digits_ne_nil_iff_ne_zero.mpr h0)
      · exact ⟨d, L, rfl⟩
    refine ⟨d, L.map digitChar, ?_, by rw [hL, List.map_cons]⟩
    have : d ∈ Nat.digits 10 n := List.mem_reverse.mp (hL ▸ List.mem_cons_self d L)
    exact Nat.digits_lt_base (by norm_num) this

theorem digitChar_ne_minus {d : Nat} (h : d < 10) : digitChar d ≠ '-' := by
  intro heq
  have := congrArg Char.toNat heq
  rw [toNat_digitChar h] at this
  have : (48 + d) = 45 := this
  omega

theorem digitChar_ne_plus {d : Nat} (h : d < 10) : digitChar d ≠ '+' := by
  intro heq
  have := congrArg Char.toNat heq
  rw [toNat_digitChar h] at this
  have : (48 + d) = 43 := this
  omega

/-- Parsing inverts `to_string` for in-range unsigned values. -/
theorem parseUnsigned_reprNat {w n : Nat} (h : n < 2 ^ w) :
    parseUnsigned w (String.mk (reprNat n)) = .ok n := by
  obtain ⟨d, r, hd, hrepr⟩ := reprNat_head n
  rw [parseUnsigned]
  simp only [hrepr]
  rw [if_neg (digitChar_ne_plus hd), ← hrepr, parseNatCore_reprNat]
  simp [h]

/-- Parsing inverts `to_string` for in-range signed values. -/
theorem parseSigned_reprInt {w : Nat} {i : Int}
    (h1 : -(2 ^ (w - 1)) ≤ i) (h2 : i < 2 ^ (w - 1)) :
    parseSigned w (String.mk (reprInt i)) = .ok i := by
  have hcast : ((2 ^ (w - 1) : ℕ) : ℤ) = (2 : ℤ) ^ (w - 1) := by push_cast; ring
  by_cases hneg : i < 0
  · rw [reprInt, if_pos hneg, parseSigned]
    have hb : i.natAbs ≤ 2 ^ (w - 1) := by omega
    simp [parseNatCore_reprNat, hb, Int.natCast_natAbs, abs_of_neg hneg]
  · rw [reprInt, if_neg hneg]
    obtain ⟨d, r, hd, hrepr⟩ := reprNat_head i.natAbs
    rw [parseSigned]
    have hb : i.natAbs < 2 ^ (w - 1) := by omega
    simp only [hrepr]
    simp [digitChar_ne_minus hd, digitChar_ne_plus hd, ← hrepr, parseNatCore_reprNat, hb]
    omega

/-! ## Type requests and host values

The serde data model is deep-embedded: `Ty` is the shape a `Deserialize`
impl requests (scalars by width, strings, options, sequences, tuples,
derived structs with named typed fields, derived enums with named
variants), and `HVal` is the host value a visitor builds (or, on the
encode side, the host value a `Serialize` impl walks). -/

/-- Shape of one enum variant of a derived `Deserialize`/`Serialize` impl. -/
inductive VariantShape (α : Type) where
  | unitV
  | newtypeV (t : α)
  | tupleV (len : Nat)
  | structV (fields : List String)

/-- A type request against the decode engine. -/
inductive Ty where
  | tBool
  | tUInt (w : Nat)
  | tInt (w : Nat)
  | tStr
  | tOption (t : Ty)
  | tSeq (t : Ty)
  | tTuple (ts : List Ty)
  | tStruct (fields : List (String × Ty))
  | tEnum (variants : List (String × VariantShape Ty))

/-- Host values built by decoding / walked by encoding. -/
inductive HVal where
  | b (x : Bool)
  | num (x : Int)
  | str (s : String)
  | char (c : Char)
  | bytes (bs : List Nat)
  | hNone
  | hSome (v : HVal)
  | unit
  | list (vs : List HVal)
  | tup (vs : List HVal)
  | strct (fields : List (String × HVal))
  | hMap (pairs : List (HVal × HVal))
  | variant (name : String)
  | variantNew (name : String) (v : HVal)
  | variantTup (name : String) (vs : List HVal)
  | variantStruct (name : String) (fields : List (String × HVal))

/-! ## Decode engine (`src/decode.rs`)

A `Deserializer` is its remaining value stream (`Peekable<vec::IntoIter>`
over `Cow<Value>`); each `deserialize_*` method consumes the deserializer,
so the embedding is a function from the stream to a result. -/

/-- Embeds `Deserializer::next`. -/
def nextValue : List Value → Except DError (Value × List Value)
  | [] => .error .EndOfStream
  | v :: rest => .ok (v, rest)

/-- Embeds `Deserializer::next_bulk`. -/
def nextBulk (vs : List Value) : Except DError (List Value) :=
  match nextValue vs with
  | .error e => .error e
  | .ok (Value.Bulk l, _) => .ok l
  | .ok (v, _) => .error (.WrongValue ("expected bulk but got " ++ v.show))

/-- Embeds `Deserializer::next_bytes`. -/
def nextBytes (vs : List Value) : Except DError (List Nat) :=
  match nextValue vs with
  | .error e => .error e
  | .ok (Value.Data bs, _) => .ok bs
  | .ok (v, _) => .error (.WrongValue ("Expected bytes, but got " ++ v.show))

/-- Embeds `Deserializer::read_string`. -/
def readString (vs : List Value) : Except DError String :=
  match nextValue vs with
  | .error e => .error e
  | .ok (Value.Data bs, _) =>
    match utf8Decode bs with
    | some cs => .ok (String.mk cs)
    | none => .error .StrFromUtf8
  | .ok (v, _) => .error (.WrongValue ("Expected Data, got " ++ v.show))

/-- Embeds `deserialize_bool`. -/
def decodeBool (vs : List Value) : Except DError Bool :=
  match readString vs with
  | .error e => .error e
  | .ok s =>
    if s = "1" ∨ s = "true" ∨ s = "True" then .ok true
    else if s = "0" ∨ s = "false" ∨ s = "False" then .ok false
    else .error (.WrongValue ("Expected 1/0/true/false/True/False, got " ++ s))

/-- Embeds `deserialize_u8` .. `deserialize_u64` (the `impl_num!` macro at an
unsigned type of bit width `w`): text is parsed, a wire `Int` is cast with
`as`. -/
def decodeNumU (w : Nat) (vs : List Value) : Except DError Int :=
  match nextValue vs with
  | .error e => .error e
  | .ok (Value.Data bs, _) =>
    match utf8Decode bs with
    | some cs => (parseUnsigned w (String.mk cs)).map (fun n => (n : Int))
    | none => .error .StrFromUtf8
  | .ok (Value.Int i, _) => .ok (castUnsigned w i)
  | .ok (v, _) => .error (.WrongValue ("Expected Data or Int, got " ++ v.show))

/-- Embeds `deserialize_i8` .. `deserialize_i64` (the `impl_num!` macro at a
signed type of bit width `w`). -/
def decodeNumS (w : Nat) (vs : List Value) : Except DError Int :=
  match nextValue vs with
  | .error e => .error e
  | .ok (Value.Data bs, _) =>
    match utf8Decode bs with
    | some cs => parseSigned w (String.mk cs)
    | none => .error .StrFromUtf8
  | .ok (Value.Int i, _) => .ok (castSigned w i)
  | .ok (v, _) => .error (.WrongValue ("Expected Data or Int, got " ++ v.show))

/-- Field lookup in a struct's declared field list (how a derived
`Deserialize` impl matches a decoded key against field identifiers). -/
def lookupField : List (String × Ty) → String → Option Ty
  | [], _ => none
  | (k, t) :: rest, key => if k = key then some t else lookupField rest key

/-- Variant lookup in an enum's declared variant list. -/
def lookupVar : List (String × VariantShape Ty) → String → Option (VariantShape Ty)
  | [], _ => none
  | (k, sh) :: rest, key => if k = key then some sh else lookupVar rest key

/-- Assignment lookup in the accumulated struct fields. -/
def findAssign : List (String × HVal) → String → Option HVal
  | [], _ => none
  | (k, v) :: rest, key => if k = key then some v else findAssign rest key

/-- Outcome of processing one key/value pair of a flattened struct
encoding: fail, record a decoded known field, or ignore the pair. -/
inductive PairAction where
  | err (e : DError)
  | push (key : String) (r : HVal)
  | skip

/-- Dispatch of serde's `missing_field` helper: its internal deserializer
answers `deserialize_option` with `visit_none` and forwards every other
request to a `deserialize_any` that returns `Err(missing_field)`.  So a
missing field resolves to `None` exactly when its declared type is an
`Option`, and errors otherwise. -/
def Ty.isOption : Ty → Bool
  | .tOption _ => true
  | _ => false

/-- After the key/value stream is exhausted, a derived struct impl resolves
each declared field in order: an assigned field keeps its decoded value; an
unassigned field goes through `serde::__private::de::missing_field`, which
yields `None` for an `Option`-typed field (via `deserialize_option` →
`visit_none`) and fails with `MissingField` for any other type — the first
such failure aborts (matching the repo's `deserialize_complex_struct`
test, where the absent `not_present: Option<String>` decodes to `None`). -/
def buildStruct : List (String × Ty) → List (String × HVal) →
    Except DError (List (String × HVal))
  | [], _ => .ok []
  | (name, t) :: rest, acc =>
    match findAssign acc name with
    | some v =>
      match buildStruct rest acc with
      | .error e => .error e
      | .ok fs => .ok ((name, v) :: fs)
    | none =>
      if t.isOption then
        match buildStruct rest acc with
        | .error e => .error e
        | .ok fs => .ok ((name, .hNone) :: fs)
      else .error (.MissingField name)

mutual

/-- The decode engine: one type request against the value stream.  Mirrors
the `serde::Deserializer` impl together with the visitors a derived
`Deserialize` impl supplies:
* scalars via `decodeBool`/`decodeNumU`/`decodeNumS`/`readString`;
* `tOption` via `deserialize_option` (peek: `Data`/`Int` recurse as
  present, `Nil` or an exhausted stream is absent, anything else is
  `WrongValue`);
* `tSeq`/`tTuple` via `deserialize_seq` (`next_bulk`, then `SeqVisitor`
  hands each element to a fresh single-value `Deserializer`);
* `tStruct` via `deserialize_struct = deserialize_map` (`next_bulk`, then
  `MapVisitor` alternates key/value; unknown keys are fed to `IgnoredAny`,
  whose `deserialize_ignored_any = deserialize_any` calls `next_bytes`);
* `tEnum` via `deserialize_enum` (`next` one value as the variant name;
  the content slot is always `Value::Nil`, so tuple/struct variant
  payload requests run `deserialize_any` on `Nil` and fail). -/
def decode : Ty → List Value → Except DError HVal
  | .tBool, vs => (decodeBool vs).map .b
  | .tUInt w, vs => (decodeNumU w vs).map .num
  | .tInt w, vs => (decodeNumS w vs).map .num
  | .tStr, vs => (readString vs).map .str
  | .tOption t, vs =>
    match vs with
    | [] => .ok .hNone
    | v :: rest =>
      match v with
      | .Data bs => (decode t (Value.Data bs :: rest)).map .hSome
      | .Int i => (decode t (Value.Int i :: rest)).map .hSome
      | .Nil => .ok .hNone
      | _ => .error (.WrongValue "Expected Data, Int, or Nil")
  | .tSeq t, vs =>
    match nextBulk vs with
    | .error e => .error e
    | .ok elems =>
      match decodeElems t elems with
      | .error e => .error e
      | .ok rs => .ok (.list rs)
  | .tTuple ts, vs =>
    match nextBulk vs with
    | .error e => .error e
    | .ok elems =>
      match decodeTupleElems ts elems with
      | .error e => .error e
      | .ok rs => .ok (.tup rs)
  | .tStruct fields, vs =>
    match nextBulk vs with
    | .error e => .error e
    | .ok elems =>
      match decodePairs fields elems [] with
      | .error e => .error e
      | .ok acc =>
        match buildStruct fields acc with
        | .error e => .error e
        | .ok fs => .ok (.strct fs)
  | .tEnum vars, vs =>
    match nextValue vs with
    | .error e => .error e
    | .ok (v, _) =>
      match readString [v] with
      | .error e => .error e
      | .ok name => decodeEnumVar (vars.map (·.1)) vars name
termination_by t _ => (sizeOf t, 0)
decreasing_by
  all_goals simp_wf
  all_goals
    first
    | (apply Prod.Lex.left
       omega)
    | (apply Prod.Lex.right
       omega)
    | omega

/-- The variant dispatch of a derived enum `Deserialize` impl: the decoded
name is matched against the declared variants (`expected` is the full name
list, for the `unknown_variant` error).  A unit variant calls
`unit_variant()` (always `Ok`); a newtype variant decodes its payload type
from the content slot, which `deserialize_enum` fixed as `Value::Nil`;
tuple/struct variants call `tuple_variant`/`struct_variant`, which run
`deserialize_any` on that `Nil` and therefore fail in `next_bytes`. -/
def decodeEnumVar (expected : List String) :
    List (String × VariantShape Ty) → String → Except DError HVal
  | [], name => .error (.UnknownVariant name expected)
  | (k, sh) :: rest, name =>
    if k = name then
      match sh with
      | .unitV => .ok (.variant name)
      | .newtypeV t =>
        match decode t [Value.Nil] with
        | .error e => .error e
        | .ok r => .ok (.variantNew name r)
      | .tupleV _ =>
        .error (.WrongValue ("Expected bytes, but got " ++ Value.Nil.show))
      | .structV _ =>
        .error (.WrongValue ("Expected bytes, but got " ++ Value.Nil.show))
    else decodeEnumVar expected rest name
termination_by vars _ => (sizeOf vars, 0)
decreasing_by
  all_goals simp_wf
  all_goals
    first
    | (apply Prod.Lex.left
       omega)
    | (apply Prod.Lex.right
       omega)
    | omega

/-- Embeds `SeqVisitor` driven by a `Vec<T>` visitor: each element is decoded
from a fresh one-value `Deserializer` until the iterator is exhausted. -/
def decodeElems (t : Ty) : List Value → Except DError (List HVal)
  | [] => .ok []
  | v :: rest =>
    match decode t [v] with
    | .error e => .error e
    | .ok r =>
      match decodeElems t rest with
      | .error e => .error e
      | .ok rs => .ok (r :: rs)
termination_by elems => (sizeOf t, elems.length + 1)
decreasing_by
  all_goals simp_wf
  all_goals
    first
    | (apply Prod.Lex.left
       omega)
    | (apply Prod.Lex.right
       omega)
    | omega

/-- Embeds `SeqVisitor` driven by a tuple visitor: exactly one element per
component; a missing element is serde's `invalid_length` error (which the
`Error::custom` escape hatch materialises); surplus elements are left
unread. -/
def decodeTupleElems : List Ty → List Value → Except DError (List HVal)
  | [], _ => .ok []
  | _ :: _, [] => .error (.Custom "invalid length")
  | t :: ts, v :: rest =>
    match decode t [v] with
    | .error e => .error e
    | .ok r =>
      match decodeTupleElems ts rest with
      | .error e => .error e
      | .ok rs => .ok (r :: rs)
termination_by ts _ => (sizeOf ts, 0)
decreasing_by
  all_goals simp_wf
  all_goals
    first
    | (apply Prod.Lex.left
       omega)
    | (apply Prod.Lex.right
       omega)
    | omega

/-- Embeds `MapVisitor` driven by a derived struct visitor: keys are decoded as
identifiers (strings); a known key checks for duplicates and then decodes
the field's type from a fresh one-value `Deserializer`; an unknown key
feeds its value to `IgnoredAny` (= `deserialize_any` = `next_bytes`);
a key with no following value is `EndOfStream`. -/
def decodePairs (fields : List (String × Ty)) :
    List Value → List (String × HVal) → Except DError (List (String × HVal))
  | [], acc => .ok acc
  | [k], acc =>
    match readString [k] with
    | .error e => .error e
    | .ok key =>
      match lookupField fields key with
      | some _ =>
        if (findAssign acc key).isSome then .error (.DuplicateField key)
        else .error .EndOfStream
      | none => .error .EndOfStream
  | k :: v :: rest2, acc =>
    match pairStep fields acc k v with
    | .err e => .error e
    | .push key r => decodePairs fields rest2 (acc ++ [(key, r)])
    | .skip => decodePairs fields rest2 acc
termination_by elems _ => (sizeOf fields, elems.length + 2)
decreasing_by
  all_goals simp_wf
  all_goals
    first
    | (apply Prod.Lex.left
       omega)
    | (apply Prod.Lex.right
       omega)
    | omega

/-- One key/value step of `MapVisitor` under a derived struct visitor:
decode the key as an identifier string; a known key checks for duplicates
and decodes the field's declared type from the value; an unknown key feeds
the value to `IgnoredAny` (= `deserialize_any` = `next_bytes`) and is
dropped on success. -/
def pairStep (fields : List (String × Ty)) (acc : List (String × HVal))
    (k v : Value) : PairAction :=
  match readString [k] with
  | .error e => .err e
  | .ok key =>
    match lookupField fields key with
    | some _ =>
      if (findAssign acc key).isSome then .err (.DuplicateField key)
      else
        match decodeAtField fields key v with
        | .error e => .err e
        | .ok (some r) => .push key r
        | .ok none => .skip
    | none =>
      match nextBytes [v] with
      | .error e => .err e
      | .ok _ => .skip
termination_by (sizeOf fields, 1)
decreasing_by
  all_goals simp_wf
  all_goals
    first
    | (apply Prod.Lex.left
       omega)
    | (apply Prod.Lex.right
       omega)
    | omega

/-- Decode a field value at the type of the first declared field named
`key` (the branch a derived struct visitor takes for a recognised field
identifier); `none` when no declared field matches, in which case the
caller never takes this path (`lookupField` guards it). -/
def decodeAtField : List (String × Ty) → String → Value → Except DError (Option HVal)
  | [], _, _ => .ok none
  | (k, t) :: rest, key, v =>
    if k = key then
      match decode t [v] with
      | .error e => .error e
      | .ok r => .ok (some r)
    else decodeAtField rest key v
termination_by pairs _ _ => (sizeOf pairs, 0)
decreasing_by
  all_goals simp_wf
  all_goals
    first
    | (apply Prod.Lex.left
       omega)
    | (apply Prod.Lex.right
       omega)
    | omega

end

/-! ## Encode engine (`src/encode.rs`)

`Serializer` is a unit struct; a `Serialize` impl drives a depth-first
walk of the host value, and composite shapes accumulate into a
`SerializeVec` whose `end` produces `Value::Bulk`. -/

/-- The `impl_num!` macro: any numeric scalar serializes to the bytes of
its decimal text (`v.to_string().as_bytes().to_vec()`). -/
def encodeNum (x : Int) : Value := Value.Data (strBytes (String.mk (reprInt x)))

mutual

/-- The encode engine.  Scalar rules follow the `Serializer` methods:
numbers to decimal text, `serialize_bool` via `serialize_i32(1/0)`,
strings/chars/bytes to `Data`, `None`/unit to `Nil`, unit variants to
their name.  Composites accumulate a `SerializeVec` and `end` as `Bulk`:
sequences/tuples push each element; structs/struct variants push the
field-name `Data` then the encoded value; maps push encoded key then
encoded value; tuple variants push just the payload elements (the name is
dropped).  `serialize_newtype_variant` is `todo!()`, which aborts. -/
def encodeHVal : HVal → Except SError Value
  | .b true => .ok (encodeNum 1)
  | .b false => .ok (encodeNum 0)
  | .num x => .ok (encodeNum x)
  | .str s => .ok (.Data (strBytes s))
  | .char c => .ok (.Data (strBytes (String.mk [c])))
  | .bytes bs => .ok (.Data bs)
  | .hNone => .ok .Nil
  | .hSome v => encodeHVal v
  | .unit => .ok .Nil
  | .list vs =>
    match encodeElems vs with
    | .error e => .error e
    | .ok ws => .ok (.Bulk ws)
  | .tup vs =>
    match encodeElems vs with
    | .error e => .error e
    | .ok ws => .ok (.Bulk ws)
  | .strct fields =>
    match encodeStructFields fields with
    | .error e => .error e
    | .ok ws => .ok (.Bulk ws)
  | .hMap pairs =>
    match encodeMapPairs pairs with
    | .error e => .error e
    | .ok ws => .ok (.Bulk ws)
  | .variant name => .ok (.Data (strBytes name))
  | .variantNew _ _ => .error (.Panicked "not yet implemented")
  | .variantTup _ vs =>
    match encodeElems vs with
    | .error e => .error e
    | .ok ws => .ok (.Bulk ws)
  | .variantStruct _ fields =>
    match encodeStructFields fields with
    | .error e => .error e
    | .ok ws => .ok (.Bulk ws)

/-- Embeds `SerializeSeq`/`SerializeTuple`: push each encoded element. -/
def encodeElems : List HVal → Except SError (List Value)
  | [] => .ok []
  | v :: rest =>
    match encodeHVal v with
    | .error e => .error e
    | .ok w =>
      match encodeElems rest with
      | .error e => .error e
      | .ok ws => .ok (w :: ws)

/-- Embeds `SerializeStruct::serialize_field`: push `Data(key)` then the encoded
value, in declaration order. -/
def encodeStructFields : List (String × HVal) → Except SError (List Value)
  | [] => .ok []
  | (k, v) :: rest =>
    match encodeHVal v with
    | .error e => .error e
    | .ok w =>
      match encodeStructFields rest with
      | .error e => .error e
      | .ok ws => .ok (.Data (strBytes k) :: w :: ws)

/-- Embeds `SerializeMap`: push encoded key then encoded value, in iteration
order. -/
def encodeMapPairs : List (HVal × HVal) → Except SError (List Value)
  | [] => .ok []
  | (k, v) :: rest =>
    match encodeHVal k with
    | .error e => .error e
    | .ok wk =>
      match encodeHVal v with
      | .error e => .error e
      | .ok wv =>
        match encodeMapPairs rest with
        | .error e => .error e
        | .ok ws => .ok (wk :: wv :: ws)

end

/-! ## Unfolding equations for the decode engine -/

theorem decode_tBool (vs : List Value) :
    decode .tBool vs = (decodeBool vs).map .b := by
  rw [decode.eq_def]

theorem decode_tUInt (w : Nat) (vs : List Value) :
    decode (.tUInt w) vs = (decodeNumU w vs).map .num := by
  rw [decode.eq_def]

theorem decode_tInt (w : Nat) (vs : List Value) :
    decode (.tInt w) vs = (decodeNumS w vs).map .num := by
  rw [decode.eq_def]

theorem decode_tStr (vs : List Value) :
    decode .tStr vs = (readString vs).map .str := by
  rw [decode.eq_def]

theorem decode_tOption_nil (t : Ty) : decode (.tOption t) [] = .ok .hNone := by
  rw [decode.eq_def]

theorem decode_tOption_data (t : Ty) (bs : List Nat) (rest : List Value) :
    decode (.tOption t) (.Data bs :: rest) = (decode t (.Data bs :: rest)).map .hSome := by
  rw [decode.eq_def]

theorem decode_tOption_int (t : Ty) (i : Int) (rest : List Value) :
    decode (.tOption t) (.Int i :: rest) = (decode t (.Int i :: rest)).map .hSome := by
  rw [decode.eq_def]

theorem decode_tOption_nilValue (t : Ty) (rest : List Value) :
    decode (.tOption t) (.Nil :: rest) = .ok .hNone := by
  rw [decode.eq_def]

theorem decode_tOption_bulk (t : Ty) (ws : List Value) (rest : List Value) :
    decode (.tOption t) (.Bulk ws :: rest) =
      .error (.WrongValue "Expected Data, Int, or Nil") := by
  rw [decode.eq_def]

theorem decode_tSeq (t : Ty) (vs : List Value) :
    decode (.tSeq t) vs =
      match nextBulk vs with
      | .error e => .error e
      | .ok elems =>
        match decodeElems t elems with
        | .error e => .error e
        | .ok rs => .ok (.list rs) := by
  rw [decode.eq_def]

theorem decode_tTuple (ts : List Ty) (vs : List Value) :
    decode (.tTuple ts) vs =
      match nextBulk vs with
      | .error e => .error e
      | .ok elems =>
        match decodeTupleElems ts elems with
        | .error e => .error e
        | .ok rs => .ok (.tup rs) := by
  rw [decode.eq_def]

theorem decode_tStruct (fields : List (String × Ty)) (vs : List Value) :
    decode (.tStruct fields) vs =
      match nextBulk vs with
      | .error e => .error e
      | .ok elems =>
        match decodePairs fields elems [] with
        | .error e => .error e
        | .ok acc =>
          match buildStruct fields acc with
          | .error e => .error e
          | .ok fs => .ok (.strct fs) := by
  rw [decode.eq_def]

theorem decode_tEnum (vars : List (String × VariantShape Ty)) (vs : List Value) :
    decode (.tEnum vars) vs =
      match nextValue vs with
      | .error e => .error e
      | .ok (v, _) =>
        match readString [v] with
        | .error e => .error e
        | .ok name => decodeEnumVar (vars.map (·.1)) vars name := by
  rw [decode.eq_def]

theorem decodeEnumVar_nil (expected : List String) (name : String) :
    decodeEnumVar expected [] name = .error (.UnknownVariant name expected) := by
  rw [decodeEnumVar.eq_def]

theorem decodeEnumVar_cons (expected : List String) (k : String) (sh : VariantShape Ty)
    (rest : List (String × VariantShape Ty)) (name : String) :
    decodeEnumVar expected ((k, sh) :: rest) name =
      if k = name then
        match sh with
        | .unitV => .ok (.variant name)
        | .newtypeV t =>
          match decode t [Value.Nil] with
          | .error e => .error e
          | .ok r => .ok (.variantNew name r)
        | .tupleV _ =>
          .error (.WrongValue ("Expected bytes, but got " ++ Value.Nil.show))
        | .structV _ =>
          .error (.WrongValue ("Expected bytes, but got " ++ Value.Nil.show))
      else decodeEnumVar expected rest name := by
  rw [decodeEnumVar.eq_def]

theorem decodeAtField_nil (key : String) (v : Value) :
    decodeAtField [] key v = .ok none := by
  rw [decodeAtField.eq_def]

theorem decodeAtField_cons (k : String) (t : Ty) (rest : List (String × Ty))
    (key : String) (v : Value) :
    decodeAtField ((k, t) :: rest) key v =
      if k = key then
        match decode t [v] with
        | .error e => .error e
        | .ok r => .ok (some r)
      else decodeAtField rest key v := by
  rw [decodeAtField.eq_def]

theorem decodeElems_nil (t : Ty) : decodeElems t [] = .ok [] := by
  rw [decodeElems.eq_def]

theorem decodeElems_cons (t : Ty) (v : Value) (rest : List Value) :
    decodeElems t (v :: rest) =
      match decode t [v] with
      | .error e => .error e
      | .ok r =>
        match decodeElems t rest with
        | .error e => .error e
        | .ok rs => .ok (r :: rs) := by
  rw [decodeElems.eq_def]

theorem decodeTupleElems_nil (vs : List Value) : decodeTupleElems [] vs = .ok [] := by
  rw [decodeTupleElems.eq_def]

theorem decodeTupleElems_short (t : Ty) (ts : List Ty) :
    decodeTupleElems (t :: ts) [] = .error (.Custom "invalid length") := by
  rw [decodeTupleElems.eq_def]

theorem decodeTupleElems_cons (t : Ty) (ts : List Ty) (v : Value) (rest : List Value) :
    decodeTupleElems (t :: ts) (v :: rest) =
      match decode t [v] with
      | .error e => .error e
      | .ok r =>
        match decodeTupleElems ts rest with
        | .error e => .error e
        | .ok rs => .ok (r :: rs) := by
  rw [decodeTupleElems.eq_def]

theorem decodePairs_nil (fields : List (String × Ty)) (acc : List (String × HVal)) :
    decodePairs fields [] acc = .ok acc := by
  rw [decodePairs.eq_def]

theorem decodePairs_one (fields : List (String × Ty)) (k : Value)
    (acc : List (String × HVal)) :
    decodePairs fields [k] acc =
      match readString [k] with
      | .error e => .error e
      | .ok key =>
        match lookupField fields key with
        | some _ =>
          if (findAssign acc key).isSome then .error (.DuplicateField key)
          else .error .EndOfStream
        | none => .error .EndOfStream := by
  rw [decodePairs.eq_def]

theorem decodePairs_cons (fields : List (String × Ty)) (k v : Value) (rest2 : List Value)
    (acc : List (String × HVal)) :
    decodePairs fields (k :: v :: rest2) acc =
      match pairStep fields acc k v with
      | .err e => .error e
      | .push key r => decodePairs fields rest2 (acc ++ [(key, r)])
      | .skip => decodePairs fields rest2 acc := by
  rw [decodePairs.eq_def]

theorem pairStep_eq (fields : List (String × Ty)) (acc : List (String × HVal))
    (k v : Value) :
    pairStep fields acc k v =
      match readString [k] with
      | .error e => .err e
      | .ok key =>
        match lookupField fields key with
        | some _ =>
          if (findAssign acc key).isSome then .err (.DuplicateField key)
          else
            match decodeAtField fields key v with
            | .error e => .err e
            | .ok (some r) => .push key r
            | .ok none => .skip
        | none =>
          match nextBytes [v] with
          | .error e => .err e
          | .ok _ => .skip := by
  rw [pairStep.eq_def]

/-! ## Bridging lemmas -/

theorem String.mk_data_eq (s : String) : String.mk s.data = s := by
  cases s
  rfl

/-- Running `read_string` on a `Data` value holding the UTF-8 bytes of `s` yields
`s`. -/
theorem readString_strBytes (s : String) (rest : List Value) :
    readString (Value.Data (strBytes s) :: rest) = .ok s := by
  simp only [readString, nextValue, utf8Decode_strBytes, String.mk_data_eq]

/-! ## Claim C9 -/

/-- C9: an optional-type decode on an exhausted cursor succeeds with
"absent" (`None`) instead of failing with `EndOfStream`. -/
theorem c9_option_on_exhausted_cursor (t : Ty) : decode (.tOption t) [] = .ok .hNone :=
  decode_tOption_nil t

/-! ## Claim C4 -/

/-- C4: optional decode peeks the next value: `Nil` gives absent (and is
not consumed — nothing further is read), `Data`/`Int` delegate to the inner
type decoded as present, any other variant fails with `WrongValue`; and a
`Nil` decoded against each non-optional scalar shape fails with
`WrongValue`. -/
theorem c4_option_decode (t : Ty) (rest : List Value) :
    (decode (.tOption t) (Value.Nil :: rest) = .ok .hNone)
    ∧ (∀ bs, decode (.tOption t) (Value.Data bs :: rest) =
        (decode t (Value.Data bs :: rest)).map .hSome)
    ∧ (∀ i, decode (.tOption t) (Value.Int i :: rest) =
        (decode t (Value.Int i :: rest)).map .hSome)
    ∧ (∀ ws, decode (.tOption t) (Value.Bulk ws :: rest) =
        .error (.WrongValue "Expected Data, Int, or Nil"))
    ∧ (∀ w, decode (.tUInt w) (Value.Nil :: rest) =
        .error (.WrongValue ("Expected Data or Int, got " ++ Value.Nil.show)))
    ∧ (∀ w, decode (.tInt w) (Value.Nil :: rest) =
        .error (.WrongValue ("Expected Data or Int, got " ++ Value.Nil.show)))
    ∧ (decode .tStr (Value.Nil :: rest) =
        .error (.WrongValue ("Expected Data, got " ++ Value.Nil.show)))
    ∧ (decode .tBool (Value.Nil :: rest) =
        .error (.WrongValue ("Expected Data, got " ++ Value.Nil.show))) := by
  refine ⟨decode_tOption_nilValue t rest, (decode_tOption_data t · rest),
    (decode_tOption_int t · rest), (decode_tOption_bulk t · rest), ?_, ?_, ?_, ?_⟩
  · intro w
    rw [decode_tUInt]
    simp [decodeNumU, nextValue, Except.map]
  · intro w
    rw [decode_tInt]
    simp [decodeNumS, nextValue, Except.map]
  · rw [decode_tStr]
    simp [readString, nextValue, Except.map]
  · rw [decode_tBool]
    simp [decodeBool, readString, nextValue, Except.map]

/-! ## Claim C10 -/

/-- C10: a wire `Integer` decoded at an integer type of bit width `w`
always succeeds, with the value truncated like a Rust `as` cast: the result
is congruent to `i` modulo `2^w` and lies in the unsigned (resp. signed
two's-complement) range of the type. -/
theorem c10_wire_int_truncates (w : Nat) (i : Int) (rest : List Value) (hw : 0 < w) :
    (∃ r, decode (.tUInt w) (Value.Int i :: rest) = .ok (.num r)
      ∧ 0 ≤ r ∧ r < 2 ^ w ∧ r % 2 ^ w = i % 2 ^ w)
    ∧ (∃ r, decode (.tInt w) (Value.Int i :: rest) = .ok (.num r)
      ∧ -(2 ^ (w - 1)) ≤ r ∧ r < 2 ^ (w - 1) ∧ r % 2 ^ w = i % 2 ^ w) := by
  have hpos : (0 : Int) < 2 ^ w := by positivity
  have hsplit : (2 : Int) ^ w = 2 ^ (w - 1) * 2 := by
    rw [← pow_succ]
    congr 1
    omega
  constructor
  · refine ⟨castUnsigned w i, ?_, ?_, ?_, ?_⟩
    · rw [decode_tUInt]
      simp [decodeNumU, nextValue, Except.map]
    · exact Int.emod_nonneg i (ne_of_gt hpos)
    · exact Int.emod_lt_of_pos i hpos
    · rw [castUnsigned, Int.emod_emod_of_dvd _ dvd_rfl]
  · refine ⟨castSigned w i, ?_, ?_, ?_, ?_⟩
    · rw [decode_tInt]
      simp [decodeNumS, nextValue, Except.map]
    · rw [castSigned]
      have := Int.emod_nonneg (i + 2 ^ (w - 1)) (ne_of_gt hpos)
      omega
    · rw [castSigned]
      have := Int.emod_lt_of_pos (i + 2 ^ (w - 1)) hpos
      omega
    · rw [castSigned]
      calc ((i + 2 ^ (w - 1)) % 2 ^ w - 2 ^ (w - 1)) % 2 ^ w
          = ((i + 2 ^ (w - 1)) % 2 ^ w % 2 ^ w - 2 ^ (w - 1) % 2 ^ w) % 2 ^ w :=
            Int.sub_emod _ _ _
        _ = ((i + 2 ^ (w - 1)) % 2 ^ w - 2 ^ (w - 1) % 2 ^ w) % 2 ^ w := by
            rw [Int.emod_emod_of_dvd _ dvd_rfl]
        _ = ((i + 2 ^ (w - 1)) - 2 ^ (w - 1)) % 2 ^ w := (Int.sub_emod _ _ _).symm
        _ = i % 2 ^ w := by rw [Int.add_sub_cancel]

/-- Concrete instance of C10: `Integer(300)` decoded as `u8` yields `44`. -/
theorem c10_wire_int_truncates_witness :
    (0 < 8) ∧
    ((∃ r, decode (.tUInt 8) (Value.Int 300 :: []) = .ok (.num r)
      ∧ 0 ≤ r ∧ r < 2 ^ 8 ∧ r % 2 ^ 8 = 300 % 2 ^ 8)
    ∧ (∃ r, decode (.tInt 8) (Value.Int 300 :: []) = .ok (.num r)
      ∧ -(2 ^ (8 - 1)) ≤ r ∧ r < 2 ^ (8 - 1) ∧ r % 2 ^ 8 = 300 % 2 ^ 8)) :=
  ⟨by decide, c10_wire_int_truncates 8 300 [] (by decide)⟩

/-! ## Claim C8 -/

theorem decodeEnumVar_lookup_unit {vars : List (String × VariantShape Ty)} {name : String}
    (h : lookupVar vars name = some .unitV) (expected : List String) :
    decodeEnumVar expected vars name = .ok (.variant name) := by
  induction vars with
  | nil => simp [lookupVar] at h
  | cons p rest ih =>
      obtain ⟨k, sh'⟩ := p
      rw [lookupVar] at h
      rw [decodeEnumVar_cons]
      by_cases hk : k = name
      · rw [if_pos hk] at h ⊢
        obtain rfl : sh' = .unitV := by simpa using h
        rfl
      · rw [if_neg hk] at h ⊢
        exact ih h

theorem decodeEnumVar_lookup_tuple {vars : List (String × VariantShape Ty)} {name : String}
    {n : Nat} (h : lookupVar vars name = some (.tupleV n)) (expected : List String) :
    decodeEnumVar expected vars name =
      .error (.WrongValue ("Expected bytes, but got " ++ Value.Nil.show)) := by
  induction vars with
  | nil => simp [lookupVar] at h
  | cons p rest ih =>
      obtain ⟨k, sh'⟩ := p
      rw [lookupVar] at h
      rw [decodeEnumVar_cons]
      by_cases hk : k = name
      · rw [if_pos hk] at h ⊢
        obtain rfl : sh' = .tupleV n := by simpa using h
        rfl
      · rw [if_neg hk] at h ⊢
        exact ih h

theorem decodeEnumVar_lookup_struct {vars : List (String × VariantShape Ty)} {name : String}
    {fs : List String} (h : lookupVar vars name = some (.structV fs)) (expected : List String) :
    decodeEnumVar expected vars name =
      .error (.WrongValue ("Expected bytes, but got " ++ Value.Nil.show)) := by
  induction vars with
  | nil => simp [lookupVar] at h
  | cons p rest ih =>
      obtain ⟨k, sh'⟩ := p
      rw [lookupVar] at h
      rw [decodeEnumVar_cons]
      by_cases hk : k = name
      · rw [if_pos hk] at h ⊢
        obtain rfl : sh' = .structV fs := by simpa using h
        rfl
      · rw [if_neg hk] at h ⊢
        exact ih h

/-- C8: an enum decode consumes a single wire value as the variant's
textual name; a unit variant of that name decodes successfully; since the
payload slot is fixed to `Null`, a tuple-variant or struct-variant request
fails with `WrongValue`. -/
theorem c8_enum_decode (vars : List (String × VariantShape Ty)) (name : String)
    (rest : List Value) :
    (lookupVar vars name = some .unitV →
      decode (.tEnum vars) (Value.Data (strBytes name) :: rest) = .ok (.variant name))
    ∧ (∀ n, lookupVar vars name = some (.tupleV n) →
      decode (.tEnum vars) (Value.Data (strBytes name) :: rest) =
        .error (.WrongValue ("Expected bytes, but got " ++ Value.Nil.show)))
    ∧ (∀ fs, lookupVar vars name = some (.structV fs) →
      decode (.tEnum vars) (Value.Data (strBytes name) :: rest) =
        .error (.WrongValue ("Expected bytes, but got " ++ Value.Nil.show))) := by
  refine ⟨fun h => ?_, fun n h => ?_, fun fs h => ?_⟩
  · rw [decode_tEnum]
    simp only [nextValue, readString_strBytes, decodeEnumVar_lookup_unit h]
  · rw [decode_tEnum]
    simp only [nextValue, readString_strBytes, decodeEnumVar_lookup_tuple h]
  · rw [decode_tEnum]
    simp only [nextValue, readString_strBytes, decodeEnumVar_lookup_struct h]

/-- Concrete instance of C8 on the two-variant enum from the test suite,
extended with a tuple variant. -/
theorem c8_enum_decode_witness :
    decode (.tEnum [("Orange", .unitV), ("Apple", .unitV), ("Pair", .tupleV 2)])
        [Value.Data (strBytes "Orange")] = .ok (.variant "Orange")
    ∧ decode (.tEnum [("Orange", .unitV), ("Apple", .unitV), ("Pair", .tupleV 2)])
        [Value.Data (strBytes "Pair")] =
      .error (.WrongValue ("Expected bytes, but got " ++ Value.Nil.show)) :=
  ⟨(c8_enum_decode _ "Orange" []).1 (by simp [lookupVar]),
   (c8_enum_decode _ "Pair" []).2.1 2 (by simp [lookupVar])⟩

/-! ## Claim C6 -/

/-- C6: encoding a struct with declared fields `{a, b}` holding string
values `{x, y}` produces exactly the flattened array
`[Data a, Data x, Data b, Data y]`, field name immediately before each
value, in declaration order. -/
theorem c6_struct_encode (a b x y : String) :
    encodeHVal (.strct [(a, .str x), (b, .str y)]) =
      .ok (.Bulk [.Data (strBytes a), .Data (strBytes x),
                  .Data (strBytes b), .Data (strBytes y)]) := by
  rfl

/-! ## Claim C7 -/

/-- C7 counterexample: encoding a tuple variant does NOT fail with a
custom-category error — it succeeds, returning the payload array (the
variant name is dropped). -/
theorem c7_counterexample :
    encodeHVal (.variantTup "V" [.str "x"]) = .ok (.Bulk [.Data (strBytes "x")])
    ∧ ∀ e, encodeHVal (.variantTup "V" [.str "x"]) ≠ .error e := by
  constructor
  · rfl
  · intro e h
    rw [show encodeHVal (.variantTup "V" [.str "x"])
        = .ok (.Bulk [.Data (strBytes "x")]) from rfl] at h
    exact absurd h (by simp)

/-- C7 amended: `serialize_newtype_variant` is `todo!()` and aborts
(modelled as the `Panicked` outcome, not a returned `Custom` error), while
tuple and struct variants encode successfully whenever their payload does:
the payload elements (resp. alternating field-name/value pairs) become an
`Array`, and the variant name is dropped. -/
theorem c7_amended (name : String) (v : HVal) (vs : List HVal)
    (fields : List (String × HVal)) :
    (encodeHVal (.variantNew name v) = .error (.Panicked "not yet implemented"))
    ∧ (∀ ws, encodeElems vs = .ok ws →
        encodeHVal (.variantTup name vs) = .ok (.Bulk ws))
    ∧ (∀ ws, encodeStructFields fields = .ok ws →
        encodeHVal (.variantStruct name fields) = .ok (.Bulk ws)) := by
  refine ⟨rfl, fun ws h => ?_, fun ws h => ?_⟩
  · show (match encodeElems vs with
      | .error e => .error e
      | .ok ws => .ok (.Bulk ws) : Except SError Value) = .ok (.Bulk ws)
    rw [h]
  · show (match encodeStructFields fields with
      | .error e => .error e
      | .ok ws => .ok (.Bulk ws) : Except SError Value) = .ok (.Bulk ws)
    rw [h]

/-- Concrete instance of the amended C7. -/
theorem c7_amended_witness :
    encodeHVal (.variantNew "V" (.str "x")) = .error (.Panicked "not yet implemented")
    ∧ encodeHVal (.variantTup "W" [.str "p", .str "q"]) =
        .ok (.Bulk [.Data (strBytes "p"), .Data (strBytes "q")])
    ∧ encodeHVal (.variantStruct "U" [("f", .str "z")]) =
        .ok (.Bulk [.Data (strBytes "f"), .Data (strBytes "z")]) :=
  ⟨(c7_amended "V" (.str "x") [] []).1,
   (c7_amended "W" (.str "x") [.str "p", .str "q"] []).2.1 _ rfl,
   (c7_amended "U" (.str "x") [] [("f", .str "z")]).2.2 _ rfl⟩

/-! ## Scalar round trips (string/boolean/integer fragment)

The frozen round-trip claim quantifies over every supported scalar,
including `f32`/`f64`; the float family's `to_string`/`parse` round trip
is IEEE-754 shortest-decimal behaviour that this embedding does not
model, so no theorem here stands for that claim.  The lemmas below settle
the string, boolean and integer fragment. -/

theorem decodeNumU_data (w : Nat) (s : String) (rest : List Value) :
    decodeNumU w (Value.Data (strBytes s) :: rest) =
      (parseUnsigned w s).map (fun n => (n : Int)) := by
  simp only [decodeNumU, nextValue, utf8Decode_strBytes, String.mk_data_eq]

theorem decodeNumS_data (w : Nat) (s : String) (rest : List Value) :
    decodeNumS w (Value.Data (strBytes s) :: rest) = parseSigned w s := by
  simp only [decodeNumS, nextValue, utf8Decode_strBytes, String.mk_data_eq]

theorem digits_ten_one : Nat.digits 10 1 = [1] := by
  rw [Nat.digits_def' (by norm_num : (1 : ℕ) < 10) (by norm_num : 0 < 1)]
  norm_num

theorem reprInt_zero_str : String.mk (reprInt 0) = "0" := by
  rw [reprInt, if_neg (by norm_num)]
  show String.mk (reprNat (0 : Int).natAbs) = "0"
  rw [Int.natAbs_zero, reprNat, if_pos rfl]

theorem reprInt_one_str : String.mk (reprInt 1) = "1" := by
  rw [reprInt, if_neg (by norm_num)]
  show String.mk (reprNat (1 : Int).natAbs) = "1"
  rw [Int.natAbs_one, reprNat, if_neg one_ne_zero, digits_ten_one]
  decide

/-- Scalar round trip for the non-float scalars: for every string,
boolean, and in-range unsigned/signed integer host value, decoding the
wire value the encoder produced yields the original value (numbers travel
as decimal text in a `ByteString`, booleans as `"1"`/`"0"`). -/
theorem roundtrip_str_bool_int :
    (∀ s : String, ∃ wire, encodeHVal (.str s) = .ok wire
      ∧ decode .tStr [wire] = .ok (.str s))
    ∧ (∀ x : Bool, ∃ wire, encodeHVal (.b x) = .ok wire
      ∧ decode .tBool [wire] = .ok (.b x))
    ∧ (∀ (w : Nat) (x : Int), 0 ≤ x → x < 2 ^ w →
      ∃ wire, encodeHVal (.num x) = .ok wire ∧ decode (.tUInt w) [wire] = .ok (.num x))
    ∧ (∀ (w : Nat) (x : Int), -(2 ^ (w - 1)) ≤ x → x < 2 ^ (w - 1) →
      ∃ wire, encodeHVal (.num x) = .ok wire ∧ decode (.tInt w) [wire] = .ok (.num x)) := by
  refine ⟨?_, ?_, ?_, ?_⟩
  · intro s
    refine ⟨.Data (strBytes s), rfl, ?_⟩
    rw [decode_tStr, readString_strBytes]
    rfl
  · intro x
    cases x
    · refine ⟨encodeNum 0, rfl, ?_⟩
      rw [decode_tBool]
      show (decodeBool (Value.Data (strBytes (String.mk (reprInt 0))) :: [])).map _ = _
      rw [reprInt_zero_str]
      simp only [decodeBool, readString_strBytes]
      norm_num
      rw [if_neg (by decide)]
      rfl
    · refine ⟨encodeNum 1, rfl, ?_⟩
      rw [decode_tBool]
      show (decodeBool (Value.Data (strBytes (String.mk (reprInt 1))) :: [])).map _ = _
      rw [reprInt_one_str]
      simp only [decodeBool, readString_strBytes]
      norm_num
      rfl
  · intro w x hx0 hxw
    have hcast : ((2 ^ w : ℕ) : ℤ) = (2 : ℤ) ^ w := by push_cast; ring
    have habs : ((x.natAbs : ℕ) : ℤ) = x := by omega
    refine ⟨encodeNum x, rfl, ?_⟩
    rw [decode_tUInt]
    show (decodeNumU w (Value.Data (strBytes (String.mk (reprInt x))) :: [])).map _ = _
    rw [show reprInt x = reprNat x.natAbs from if_neg (by omega)]
    rw [decodeNumU_data, parseUnsigned_reprNat (by omega)]
    simp [Except.map, habs]
  · intro w x hx0 hxw
    refine ⟨encodeNum x, rfl, ?_⟩
    rw [decode_tInt]
    show (decodeNumS w (Value.Data (strBytes (String.mk (reprInt x))) :: [])).map _ = _
    rw [decodeNumS_data, parseSigned_reprInt hx0 hxw]
    rfl

/-- Concrete round-trip instances: `"hello"`, `true`, `200 : u8` and
`-100 : i8`. -/
theorem roundtrip_str_bool_int_instances :
    (∃ wire, encodeHVal (.str "hello") = .ok wire
      ∧ decode .tStr [wire] = .ok (.str "hello"))
    ∧ (∃ wire, encodeHVal (.b true) = .ok wire ∧ decode .tBool [wire] = .ok (.b true))
    ∧ ((0 : Int) ≤ 200 ∧ (200 : Int) < 2 ^ 8
      ∧ ∃ wire, encodeHVal (.num 200) = .ok wire
        ∧ decode (.tUInt 8) [wire] = .ok (.num 200))
    ∧ (-(2 ^ (8 - 1)) ≤ (-100 : Int) ∧ (-100 : Int) < 2 ^ (8 - 1)
      ∧ ∃ wire, encodeHVal (.num (-100)) = .ok wire
        ∧ decode (.tInt 8) [wire] = .ok (.num (-100))) :=
  ⟨roundtrip_str_bool_int.1 "hello",
   roundtrip_str_bool_int.2.1 true,
   ⟨by norm_num, by norm_num,
    roundtrip_str_bool_int.2.2.1 8 200 (by norm_num) (by norm_num)⟩,
   ⟨by norm_num, by norm_num,
    roundtrip_str_bool_int.2.2.2 8 (-100) (by norm_num) (by norm_num)⟩⟩

/-! ## Claim C3 -/

/-- C3 counterexample: the byte payload `[0xFF]` is not `"1"`, `"true"`,
`"True"`, `"0"`, `"false"` or `"False"`, yet a boolean decode of it fails
with the UTF-8 error (`StrFromUtf8`, from `read_string`), not with
`WrongValue`. -/
theorem c3_counterexample :
    decode .tBool [Value.Data [255]] = .error .StrFromUtf8
    ∧ ∀ msg, decode .tBool [Value.Data [255]] ≠ .error (.WrongValue msg) := by
  have h255 : utf8Decode [255] = none :=
    utf8Decode_eq_of_none (by decide) (by decide)
  constructor
  · rw [decode_tBool]
    simp [decodeBool, readString, nextValue, h255, Except.map]
  · intro msg h
    rw [decode_tBool] at h
    simp [decodeBool, readString, nextValue, h255, Except.map] at h

/-- C3 amended: on a `ByteString` payload, a boolean decode first UTF-8
validates the bytes — invalid UTF-8 fails with the wrapped UTF-8 error —
and only then compares the text: exactly `"1"`/`"true"`/`"True"` gives
`true`, exactly `"0"`/`"false"`/`"False"` gives `false`, and any other
*valid UTF-8* text fails with `WrongValue`. -/
theorem c3_amended (bs : List Nat) (rest : List Value) :
    (utf8Decode bs = none →
      decode .tBool (Value.Data bs :: rest) = .error .StrFromUtf8)
    ∧ (∀ cs, utf8Decode bs = some cs →
      ((String.mk cs = "1" ∨ String.mk cs = "true" ∨ String.mk cs = "True") →
        decode .tBool (Value.Data bs :: rest) = .ok (.b true))
      ∧ ((String.mk cs = "0" ∨ String.mk cs = "false" ∨ String.mk cs = "False") →
        decode .tBool (Value.Data bs :: rest) = .ok (.b false))
      ∧ (¬(String.mk cs = "1" ∨ String.mk cs = "true" ∨ String.mk cs = "True") →
         ¬(String.mk cs = "0" ∨ String.mk cs = "false" ∨ String.mk cs = "False") →
        decode .tBool (Value.Data bs :: rest) =
          .error (.WrongValue ("Expected 1/0/true/false/True/False, got "
            ++ String.mk cs)))) := by
  constructor
  · intro hnone
    rw [decode_tBool]
    simp [decodeBool, readString, nextValue, hnone, Except.map]
  · intro cs hsome
    refine ⟨fun ht => ?_, fun hf => ?_, fun hnt hnf => ?_⟩
    · rw [decode_tBool]
      simp [decodeBool, readString, nextValue, hsome, ht, Except.map]
    · rw [decode_tBool]
      have hne : ¬(String.mk cs = "1" ∨ String.mk cs = "true" ∨ String.mk cs = "True") := by
        rcases hf with h | h | h <;> rw [h] <;> decide
      simp [decodeBool, readString, nextValue, hsome, hne, hf, Except.map]
    · rw [decode_tBool]
      simp [decodeBool, readString, nextValue, hsome, hnt, hnf, Except.map]

/-- Concrete instance of the amended C3: the valid-UTF-8 payload `"yes"`
fails with `WrongValue`, and the invalid payload `[0xFF]` fails with the
UTF-8 error. -/
theorem c3_amended_witness :
    decode .tBool [Value.Data (strBytes "yes")] =
      .error (.WrongValue ("Expected 1/0/true/false/True/False, got " ++ "yes"))
    ∧ decode .tBool [Value.Data (strBytes "True")] = .ok (.b true) := by
  constructor
  · have := ((c3_amended (strBytes "yes") []).2 "yes".data
      (utf8Decode_strBytes "yes")).2.2 (by decide) (by decide)
    simpa [String.mk_data_eq] using this
  · exact ((c3_amended (strBytes "True") []).2 "True".data
      (utf8Decode_strBytes "True")).1 (by decide)

/-! ## Claim C1 -/

theorem decodeElems_of_forall₂ {t : Ty} {vs : List Value} {outs : List HVal}
    (h : List.Forall₂ (fun v out => decode t [v] = .ok out) vs outs) :
    decodeElems t vs = .ok outs := by
  induction h with
  | nil => exact decodeElems_nil t
  | cons h1 h2 ih => simp only [decodeElems_cons, h1, ih]

/-- C1: decoding a pipelined reply (an `Array` of `Array`s of key/value
pairs) against a sequence-of-structs request yields exactly one struct per
inner array, in the original order: whenever each inner array decodes as
the struct (receiving it still wrapped in its one `Array` nesting level,
which the struct decoder's `next_bulk` unwraps), the sequence decode
collects exactly those structs. -/
theorem c1_pipelined_seq_of_structs (fields : List (String × Ty))
    (kvss : List (List Value)) (outs : List HVal) (rest : List Value)
    (h : List.Forall₂
      (fun kvs out => decode (.tStruct fields) [Value.Bulk kvs] = .ok out) kvss outs) :
    decode (.tSeq (.tStruct fields)) (Value.Bulk (kvss.map Value.Bulk) :: rest)
      = .ok (.list outs) := by
  rw [decode_tSeq]
  have h2 : List.Forall₂ (fun v out => decode (.tStruct fields) [v] = .ok out)
      (kvss.map Value.Bulk) outs := List.forall₂_map_left_iff.mpr h
  simp only [nextBulk, nextValue, decodeElems_of_forall₂ h2]

/-- Decoding a flattened two-string-field struct: used to instantiate the
claims on concrete inputs. -/
theorem decode_struct_two_str (a b x y : String) (hab : a ≠ b) :
    decode (.tStruct [(a, .tStr), (b, .tStr)])
      [Value.Bulk [Value.Data (strBytes a), Value.Data (strBytes x),
                   Value.Data (strBytes b), Value.Data (strBytes y)]]
      = .ok (.strct [(a, .str x), (b, .str y)]) := by
  simp [decode_tStruct, nextBulk, nextValue, decodePairs_cons, decodePairs_nil,
    pairStep_eq, readString_strBytes, lookupField, findAssign, decodeAtField_cons,
    decodeAtField_nil, decode_tStr, buildStruct, Except.map, hab, Ne.symm hab]

/-- Concrete instance of C1: the spec's example
`[[a,"x",b,"y"],[a,"p",b,"q"]]` against `Vec<Struct{a,b}>` yields
`[{a:"x",b:"y"}, {a:"p",b:"q"}]`. -/
theorem c1_pipelined_seq_of_structs_witness :
    decode (.tSeq (.tStruct [("a", .tStr), ("b", .tStr)]))
      [Value.Bulk
        [Value.Bulk [Value.Data (strBytes "a"), Value.Data (strBytes "x"),
                     Value.Data (strBytes "b"), Value.Data (strBytes "y")],
         Value.Bulk [Value.Data (strBytes "a"), Value.Data (strBytes "p"),
                     Value.Data (strBytes "b"), Value.Data (strBytes "q")]]]
      = .ok (.list [.strct [("a", .str "x"), ("b", .str "y")],
                    .strct [("a", .str "p"), ("b", .str "q")]]) := by
  have h := c1_pipelined_seq_of_structs [("a", .tStr), ("b", .tStr)]
    [[Value.Data (strBytes "a"), Value.Data (strBytes "x"),
      Value.Data (strBytes "b"), Value.Data (strBytes "y")],
     [Value.Data (strBytes "a"), Value.Data (strBytes "p"),
      Value.Data (strBytes "b"), Value.Data (strBytes "q")]]
    [.strct [("a", .str "x"), ("b", .str "y")],
     .strct [("a", .str "p"), ("b", .str "q")]]
    []
    (List.Forall₂.cons (decode_struct_two_str "a" "b" "x" "y" (by decide))
      (List.Forall₂.cons (decode_struct_two_str "a" "b" "p" "q" (by decide))
        List.Forall₂.nil))
  simpa using h

/-! ## Claim C5 -/

/-- C5 counterexample: a key/value pair whose key (`"c"`) is not a declared
field is NOT silently ignored when its value is not a `ByteString`: the
`IgnoredAny` path runs `deserialize_any`, whose `next_bytes` rejects the
`Integer` value with `WrongValue`, aborting the whole struct decode even
though all declared fields are present. -/
theorem c5_counterexample :
    decode (.tStruct [("a", .tStr), ("b", .tStr)])
      [Value.Bulk [Value.Data (strBytes "c"), Value.Int 1,
                   Value.Data (strBytes "a"), Value.Data (strBytes "apple"),
                   Value.Data (strBytes "b"), Value.Data (strBytes "banana")]]
      = .error (.WrongValue ("Expected bytes, but got " ++ (Value.Int 1).show)) := by
  simp [decode_tStruct, nextBulk, nextValue, decodePairs_cons, pairStep_eq,
    readString_strBytes, lookupField, nextBytes, Value.show]

/-- First declared field (declaration order) that was never assigned and
whose type is not an `Option`: the field a derived struct impl reports as
`MissingField` (unassigned `Option` fields resolve to `None` instead). -/
def firstUnassignedRequired : List (String × Ty) → List (String × HVal) → Option String
  | [], _ => none
  | (name, t) :: rest, acc =>
    if (findAssign acc name).isSome then firstUnassignedRequired rest acc
    else if t.isOption then firstUnassignedRequired rest acc
    else some name

theorem buildStruct_ok_iff (fields : List (String × Ty)) (acc : List (String × HVal)) :
    ((∃ fs, buildStruct fields acc = .ok fs) ↔ firstUnassignedRequired fields acc = none)
    ∧ (∀ f, buildStruct fields acc = .error (.MissingField f)
      ↔ firstUnassignedRequired fields acc = some f) := by
  induction fields with
  | nil =>
      refine ⟨?_, ?_⟩
      · simp [buildStruct, firstUnassignedRequired]
      · intro f
        simp [buildStruct, firstUnassignedRequired]
  | cons p rest ih =>
      obtain ⟨name, t⟩ := p
      rcases hf : findAssign acc name with _ | v
      · have hs : ¬ (findAssign acc name).isSome := by rw [hf]; simp
        by_cases hopt : t.isOption
        · refine ⟨?_, ?_⟩
          · rw [firstUnassignedRequired, if_neg hs, if_pos hopt, ← ih.1]
            constructor
            · rintro ⟨fs, hfs⟩
              simp only [buildStruct, hf, if_pos hopt] at hfs
              rcases hrest : buildStruct rest acc with e | fs'
              · rw [hrest] at hfs
                exact absurd hfs (by simp)
              · exact ⟨fs', rfl⟩
            · rintro ⟨fs, hfs⟩
              refine ⟨(name, .hNone) :: fs, ?_⟩
              simp only [buildStruct, hf, if_pos hopt, hfs]
          · intro f
            rw [firstUnassignedRequired, if_neg hs, if_pos hopt, ← ih.2 f]
            simp only [buildStruct, hf, if_pos hopt]
            rcases hrest : buildStruct rest acc with e | fs'
            · simp
            · simp
        · refine ⟨?_, ?_⟩
          · rw [firstUnassignedRequired, if_neg hs, if_neg hopt]
            simp [buildStruct, hf, hopt]
          · intro f
            rw [firstUnassignedRequired, if_neg hs, if_neg hopt]
            simp [buildStruct, hf, hopt, eq_comm]
      · have hs : (findAssign acc name).isSome := by rw [hf]; rfl
        refine ⟨?_, ?_⟩
        · rw [firstUnassignedRequired, if_pos hs, ← ih.1]
          constructor
          · rintro ⟨fs, hfs⟩
            simp only [buildStruct, hf] at hfs
            rcases hrest : buildStruct rest acc with e | fs'
            · rw [hrest] at hfs
              exact absurd hfs (by simp)
            · exact ⟨fs', rfl⟩
          · rintro ⟨fs, hfs⟩
            refine ⟨(name, v) :: fs, ?_⟩
            simp only [buildStruct, hf, hfs]
        · intro f
          rw [firstUnassignedRequired, if_pos hs, ← ih.2 f]
          simp only [buildStruct, hf]
          rcases hrest : buildStruct rest acc with e | fs'
          · simp
          · simp

/-- C5 amended: a key/value pair whose key is a UTF-8 `ByteString` naming
no declared field is silently dropped *provided its value is a
`ByteString`* (an unknown pair with any other value variant aborts with
`WrongValue`, as the counterexample shows); and when the whole key/value
stream processes without error, a declared field that never appears
resolves to `None` if `Option`-typed (the claim's "without a default"
carve-out: `missing_field` answers `deserialize_option` with
`visit_none`), the decode fails with `MissingField f` exactly when `f` is
the first declared non-`Option` field never assigned, and succeeds
otherwise. -/
theorem c5_amended :
    (∀ (fields : List (String × Ty)) (kb vb : List Nat) (rest : List Value)
      (kcs : List Char),
      utf8Decode kb = some kcs → lookupField fields (String.mk kcs) = none →
      decode (.tStruct fields) [Value.Bulk (Value.Data kb :: Value.Data vb :: rest)]
        = decode (.tStruct fields) [Value.Bulk rest])
    ∧ (∀ (fields : List (String × Ty)) (kvs : List Value) (acc : List (String × HVal)),
      decodePairs fields kvs [] = .ok acc →
      ((∃ fs, decode (.tStruct fields) [Value.Bulk kvs] = .ok fs)
        ↔ firstUnassignedRequired fields acc = none)
      ∧ (∀ f, decode (.tStruct fields) [Value.Bulk kvs] = .error (.MissingField f)
        ↔ firstUnassignedRequired fields acc = some f)) := by
  constructor
  · intro fields kb vb rest kcs hk hlook
    rw [decode_tStruct, decode_tStruct]
    simp only [nextBulk, nextValue]
    rw [decodePairs_cons, pairStep_eq]
    simp only [readString, nextValue, hk, hlook, nextBytes]
  · intro fields kvs acc hp
    rw [decode_tStruct]
    simp only [nextBulk, nextValue, hp]
    refine ⟨?_, ?_⟩
    · rw [← (buildStruct_ok_iff fields acc).1]
      constructor
      · rintro ⟨fs, hfs⟩
        rcases hb : buildStruct fields acc with e | fs'
        · rw [hb] at hfs
          exact absurd hfs (by simp)
        · exact ⟨fs', rfl⟩
      · rintro ⟨fs, hfs⟩
        exact ⟨.strct fs, by rw [hfs]⟩
    · intro f
      rw [← (buildStruct_ok_iff fields acc).2 f]
      rcases hb : buildStruct fields acc with e | fs'
      · simp
      · simp

/-- Concrete instance of the amended C5: an unknown `("z", ByteString)`
pair in front of the two declared pairs decodes to the same struct as
without it; an empty stream against a one-required-field struct fails with
`MissingField "a"`; and an empty stream against a one-`Option`-field
struct succeeds (the missing field resolves to `None`). -/
theorem c5_amended_witness :
    decode (.tStruct [("a", .tStr), ("b", .tStr)])
      [Value.Bulk (Value.Data (strBytes "z") :: Value.Data (strBytes "zv") ::
        [Value.Data (strBytes "a"), Value.Data (strBytes "apple"),
         Value.Data (strBytes "b"), Value.Data (strBytes "banana")])]
      = decode (.tStruct [("a", .tStr), ("b", .tStr)])
        [Value.Bulk [Value.Data (strBytes "a"), Value.Data (strBytes "apple"),
                     Value.Data (strBytes "b"), Value.Data (strBytes "banana")]]
    ∧ (decode (.tStruct [("a", .tStr)]) [Value.Bulk []] = .error (.MissingField "a")
      ↔ firstUnassignedRequired [("a", .tStr)] [] = some "a")
    ∧ ((∃ fs, decode (.tStruct [("a", .tOption .tStr)]) [Value.Bulk []] = .ok fs)
      ↔ firstUnassignedRequired [("a", .tOption .tStr)] [] = none) := by
  refine ⟨?_, ?_, ?_⟩
  · exact c5_amended.1 [("a", .tStr), ("b", .tStr)] (strBytes "z") (strBytes "zv")
      [Value.Data (strBytes "a"), Value.Data (strBytes "apple"),
       Value.Data (strBytes "b"), Value.Data (strBytes "banana")]
      "z".data (utf8Decode_strBytes "z") (by simp [lookupField, String.mk_data_eq])
  · exact (c5_amended.2 [("a", .tStr)] [] [] (decodePairs_nil _ _)).2 "a"
  · exact (c5_amended.2 [("a", .tOption .tStr)] [] [] (decodePairs_nil _ _)).1

end SerdeRedis
